import Mathlib

/-!
Verification of the drone-gemini-plugin core: configuration/auth-mode
detection, validation, tiered pricing, context assembly, git-context
rendering and JWT assertion construction, shallowly embedded from the Go
sources (`plugin/config.go`, `plugin/pricing.go`, `plugin/git.go`,
`plugin/gemini.go`).
-/

namespace DroneGemini

/-- Plugin configuration (`Config` in config.go).  Strings are the raw
environment-variable values; `maxFiles`/`maxContextSize`/`timeout` are Go
`int`s, embedded as `Int`. -/
structure Config where
  prompt : String
  target : String
  model : String
  apiKey : String
  gcpCredentials : String
  gcpProject : String
  gcpLocation : String
  debug : Bool
  timeout : Int
  gitDiff : Bool
  gitCommitSHA : String
  maxFiles : Int
  maxContextSize : Int
  deriving Repr, DecidableEq

/-- Authentication mode (`AuthMode` in config.go). -/
inductive AuthMode where
  | authModeNone
  | authModeAPIKey
  | authModeVertexAI
  deriving Repr, DecidableEq

/-- `Config.DetectAuthMode` from config.go: API key wins; otherwise
service-account credentials plus project select Vertex AI; otherwise none. -/
def Config.detectAuthMode (c : Config) : AuthMode :=
  if c.apiKey ≠ "" then .authModeAPIKey
  else if c.gcpCredentials ≠ "" ∧ c.gcpProject ≠ "" then .authModeVertexAI
  else .authModeNone

/-- The configuration errors of errors.go. -/
inductive ConfigError where
  | errPromptRequired
  | errNoCredentials
  | errProjectRequired
  deriving Repr, DecidableEq

/-- `Config.Validate` from config.go; `none` means a nil error. -/
def Config.validate (c : Config) : Option ConfigError :=
  if c.prompt = "" then some .errPromptRequired
  else if c.detectAuthMode = .authModeNone then some .errNoCredentials
  else if c.detectAuthMode = .authModeVertexAI ∧ c.gcpProject = "" then
    some .errProjectRequired
  else none

/-- A concrete API-key configuration, used to instantiate theorems. -/
def cfgA : Config :=
  { prompt := "Review this code", target := ".", model := "gemini-2.5-pro"
    apiKey := "test-api-key", gcpCredentials := "", gcpProject := ""
    gcpLocation := "us-central1", debug := false, timeout := 300
    gitDiff := false, gitCommitSHA := "", maxFiles := 50
    maxContextSize := 512000 }

/-- Per-model pricing record (`ModelPricing` in pricing.go).  Dollar amounts
are exact rationals; the threshold is a Go `int`. -/
structure ModelPricing where
  name : String
  inputPriceShort : ℚ
  inputPriceLong : ℚ
  outputPriceShort : ℚ
  outputPriceLong : ℚ
  longContextThreshold : Int
  deriving Repr, DecidableEq

/-- The `PricingTable` map of pricing.go, as the list of its key/value
pairs in source order.  Go map iteration order is unspecified, so lookups
that range over the map are parameterized below by a permutation of this
list. -/
def pricingTable : List (String × ModelPricing) :=
  [ ("gemini-3-pro-preview",
      { name := "Gemini 3 Pro", inputPriceShort := 4, inputPriceLong := 4
        outputPriceShort := 12, outputPriceLong := 12, longContextThreshold := 0 })
  , ("gemini-3-flash-preview",
      { name := "Gemini 3 Flash", inputPriceShort := 1/2, inputPriceLong := 1/2
        outputPriceShort := 3, outputPriceLong := 3, longContextThreshold := 0 })
  , ("gemini-2.5-pro",
      { name := "Gemini 2.5 Pro", inputPriceShort := 125/100, inputPriceLong := 250/100
        outputPriceShort := 10, outputPriceLong := 15, longContextThreshold := 200000 })
  , ("gemini-2.5-flash",
      { name := "Gemini 2.5 Flash", inputPriceShort := 30/100, inputPriceLong := 30/100
        outputPriceShort := 250/100, outputPriceLong := 250/100, longContextThreshold := 0 })
  , ("gemini-2.5-flash-lite",
      { name := "Gemini 2.5 Flash-Lite", inputPriceShort := 10/100, inputPriceLong := 10/100
        outputPriceShort := 40/100, outputPriceLong := 40/100, longContextThreshold := 0 })
  , ("gemini-2.0-flash",
      { name := "Gemini 2.0 Flash", inputPriceShort := 15/100, inputPriceLong := 15/100
        outputPriceShort := 60/100, outputPriceLong := 60/100, longContextThreshold := 0 })
  , ("gemini-2.0-flash-lite",
      { name := "Gemini 2.0 Flash-Lite", inputPriceShort := 75/1000, inputPriceLong := 75/1000
        outputPriceShort := 30/100, outputPriceLong := 30/100, longContextThreshold := 0 })
  , ("gemini-1.5-pro",
      { name := "Gemini 1.5 Pro", inputPriceShort := 125/100, inputPriceLong := 125/100
        outputPriceShort := 5, outputPriceLong := 5, longContextThreshold := 0 })
  , ("gemini-1.5-flash",
      { name := "Gemini 1.5 Flash", inputPriceShort := 75/1000, inputPriceLong := 75/1000
        outputPriceShort := 30/100, outputPriceLong := 30/100, longContextThreshold := 0 }) ]

/-- `strings.Contains hay needle` on character lists. -/
def containsSub (needle : List Char) : List Char → Bool
  | [] => needle.isEmpty
  | c :: t => needle.isPrefixOf (c :: t) || containsSub needle t

/-- The partial-match test of NewCostCalculator:
`strings.Contains(strings.ToLower(model), strings.ToLower(key))`, with
`strings.ToLower` taken characterwise. -/
def partialMatch (model key : String) : Bool :=
  containsSub (key.data.map Char.toLower) (model.data.map Char.toLower)

/-- The exact-key lookup `PricingTable[model]` in NewCostCalculator. -/
def findExact (model : String) : Option ModelPricing :=
  (pricingTable.find? (fun kv => kv.1 == model)).map Prod.snd

/-- The partial-match loop of NewCostCalculator: scan the map entries in
iteration order `order`, returning the first key that is a case-insensitive
substring of the requested model identifier. -/
def findPartial (order : List (String × ModelPricing)) (model : String) :
    Option ModelPricing :=
  (order.find? (fun kv => partialMatch model kv.1)).map Prod.snd

/-- The default pricing entry of NewCostCalculator ($1.00 / $5.00 per
million tokens). -/
def mkDefaultPricing (model : String) : ModelPricing :=
  { name := model, inputPriceShort := 1, outputPriceShort := 5
    inputPriceLong := 1, outputPriceLong := 5, longContextThreshold := 0 }

/-- The pricing entry selected by `NewCostCalculator model`: exact key,
then partial match in map-iteration order `order`, then the default. -/
def newCostCalculatorPricing (order : List (String × ModelPricing))
    (model : String) : ModelPricing :=
  match findExact model with
  | some p => p
  | none =>
    match findPartial order model with
    | some p => p
    | none => mkDefaultPricing model

/-- Token usage statistics (`UsageStats` in pricing.go). -/
structure UsageStats where
  model : String
  inputTokens : Int
  outputTokens : Int
  thoughtsTokens : Int
  totalTokens : Int
  estimatedInput : Int
  inputCost : ℚ
  outputCost : ℚ
  thoughtsCost : ℚ
  totalCost : ℚ
  isLongContext : Bool
  deriving Repr, DecidableEq

/-- `CostCalculator.CalculateCost` from pricing.go, with float64 arithmetic
embedded as exact rational arithmetic. -/
def calculateCost (pricing : ModelPricing)
    (inputTokens outputTokens thoughtsTokens : Int) : UsageStats :=
  let base : UsageStats :=
    { model := pricing.name, inputTokens := inputTokens
      outputTokens := outputTokens, thoughtsTokens := thoughtsTokens
      totalTokens := inputTokens + outputTokens + thoughtsTokens
      estimatedInput := 0, inputCost := 0, outputCost := 0, thoughtsCost := 0
      totalCost := 0, isLongContext := false }
  let s : UsageStats :=
    if pricing.longContextThreshold > 0 ∧
        inputTokens > pricing.longContextThreshold then
      { base with
        isLongContext := true
        inputCost := (inputTokens : ℚ) / 1000000 * pricing.inputPriceLong
        outputCost := (outputTokens : ℚ) / 1000000 * pricing.outputPriceLong
        thoughtsCost := (thoughtsTokens : ℚ) / 1000000 * pricing.outputPriceLong }
    else
      { base with
        inputCost := (inputTokens : ℚ) / 1000000 * pricing.inputPriceShort
        outputCost := (outputTokens : ℚ) / 1000000 * pricing.outputPriceShort
        thoughtsCost := (thoughtsTokens : ℚ) / 1000000 * pricing.outputPriceShort }
  { s with totalCost := s.inputCost + s.outputCost + s.thoughtsCost }

/-- `CostCalculator.EstimateTokens` from pricing.go: `len(text)` is the
UTF-8 byte length of a Go string, divided by three (integer division). -/
def estimateTokens (text : String) : Nat :=
  let charCount := text.utf8ByteSize
  charCount / 3

/-- The spec's words for the estimator: the prompt's character count
divided by three. -/
def estimateTokensSpec (text : String) : Nat :=
  text.length / 3

/-- The `gemini-2.5-pro` pricing entry, used to instantiate theorems. -/
def pricingW : ModelPricing :=
  { name := "Gemini 2.5 Pro", inputPriceShort := 125/100, inputPriceLong := 250/100
    outputPriceShort := 10, outputPriceLong := 15
    longContextThreshold := 200000 }

/-- The `excludeDirs` set of buildContext (gemini.go). -/
def excludeDirs : List String :=
  ["context", "vendor", "node_modules", "dist", "build", "target",
   "__pycache__", ".git", ".idea", ".vscode"]

/-- The supported-extension set of buildContext (gemini.go). -/
def extensions : List String :=
  [".go", ".py", ".js", ".ts", ".java", ".c", ".cpp", ".h",
   ".md", ".yaml", ".yml", ".json", ".sh", ".bash", ".dockerfile",
   ".html", ".css", ".sql", ".jsx", ".tsx", ".vue", ".rb", ".php", ".rs"]

/-- `filepath.Ext`: the suffix of the file name starting at its final dot,
empty when the name has no dot. -/
def extOf (name : String) : String :=
  if name.data.contains '.' then
    ⟨'.' :: (name.data.reverse.takeWhile (fun c => c != '.')).reverse⟩
  else ""

/-- `strings.ToLower(filepath.Ext(path))` with the check
`extensions[ext] || info.Name() == "Dockerfile"` from buildContext. -/
def isSupportedFileName (name : String) : Bool :=
  extensions.contains ⟨(extOf name).data.map Char.toLower⟩ || name == "Dockerfile"

/-- `strings.HasPrefix(name, ".")`: hidden file or directory name. -/
def isHiddenName (name : String) : Bool :=
  match name.data with
  | [] => false
  | c :: _ => c == '.'

/-- The per-file inclusion test of the buildContext walk: not hidden,
supported extension (or Dockerfile), and at most 100 KiB of content. -/
def eligibleFile (name content : String) : Bool :=
  !isHiddenName name && isSupportedFileName name &&
    decide (content.utf8ByteSize ≤ 100 * 1024)

/-- Join directory components and a file name into a target-relative path
(`filepath.Rel(targetDir, path)` on linux). -/
def relJoin (dirs : List String) (name : String) : String :=
  match dirs with
  | [] => name
  | _ => String.intercalate "/" dirs ++ "/" ++ name

/-- A directory listing for the `filepath.Walk` of buildContext: a sequence
of file entries (name, content) and sub-directory entries, in walk
encounter order. -/
inductive FSForest where
  | nil : FSForest
  | file (name content : String) (rest : FSForest) : FSForest
  | dir (name : String) (entries : FSForest) (rest : FSForest) : FSForest

/-- The walk of buildContext: collect eligible files as (relative path,
content) pairs; hidden and excluded directories are skipped whole
(`filepath.SkipDir`), and the root directory itself is never tested
(`pre = []` when the walk starts at the target). -/
def walkForest : FSForest → List String → List (String × String)
  | .nil, _ => []
  | .file name content rest, pre =>
    (if eligibleFile name content then [(relJoin pre name, content)] else []) ++
      walkForest rest pre
  | .dir name entries rest, pre =>
    (if isHiddenName name || excludeDirs.contains name then []
     else walkForest entries (pre ++ [name])) ++
      walkForest rest pre

/-- Which limit stopped emission, carrying the configured value that the
truncation marker names. -/
inductive TruncLimit where
  | maxFilesLimit (n : Int)
  | maxSizeLimit (n : Int)
  deriving Repr, DecidableEq

/-- The outcome of the emission loop of buildContext: the emitted (relative
path, content) pairs and the truncation marker, if any. -/
structure EmitResult where
  files : List (String × String)
  marker : Option TruncLimit
  deriving Repr, DecidableEq

/-- The emission loop of buildContext: before each file, stop at the max
file count (when positive); after reading, stop when the byte budget
(when positive) would be exceeded; otherwise emit and continue. -/
def emitFiles (maxFiles maxContextSize : Int) :
    List (String × String) → Int → Int → EmitResult
  | [], _, _ => ⟨[], none⟩
  | pc :: rest, fileCount, totalSize =>
    if maxFiles > 0 ∧ fileCount ≥ maxFiles then
      ⟨[], some (.maxFilesLimit maxFiles)⟩
    else if maxContextSize > 0 ∧
        totalSize + (pc.2.utf8ByteSize : Int) > maxContextSize then
      ⟨[], some (.maxSizeLimit maxContextSize)⟩
    else
      let r := emitFiles maxFiles maxContextSize rest (fileCount + 1)
        (totalSize + (pc.2.utf8ByteSize : Int))
      ⟨pc :: r.files, r.marker⟩

/-- Total content bytes of a list of emitted files (the `totalSize`
accumulator of buildContext). -/
def sumSizes (l : List (String × String)) : Int :=
  (l.map (fun f => (f.2.utf8ByteSize : Int))).sum

/-- `changedFiles != nil && changedFiles[relPath]` from buildContext. -/
def isChanged : Option (List String) → String → Bool
  | none, _ => false
  | some cs, p => cs.contains p

/-- `buildContext` from gemini.go, down to the emitted file list and
truncation marker: walk the target forest, partition into changed-first
priority order (only when GitDiff is enabled and a changed-file set was
obtained from git, modeled by the `changedFiles` option), then run the
bounded emission loop. -/
def buildContextFiles (cfg : Config) (changedFiles : Option (List String))
    (root : FSForest) : EmitResult :=
  let files := walkForest root []
  let changed : Option (List String) := if cfg.gitDiff then changedFiles else none
  let priorityFiles := files.filter (fun f => isChanged changed f.1)
  let otherFiles := files.filter (fun f => !isChanged changed f.1)
  emitFiles cfg.maxFiles cfg.maxContextSize (priorityFiles ++ otherFiles) 0 0

/-- One emitted file section of buildContext's output string. -/
def renderFileSection (relPath content : String) : String :=
  "\n--- File: " ++ relPath ++ " ---\n" ++ content ++ "\n"

/-- The truncation marker text of buildContext, naming the limit hit. -/
def markerText : TruncLimit → String
  | .maxFilesLimit n =>
    "\n... [Truncated: reached max file limit of " ++ toString n ++ " files] ...\n"
  | .maxSizeLimit n =>
    "\n... [Truncated: reached max context size of " ++ toString n ++ " bytes] ...\n"

/-- The context string built by buildContext from an emission outcome. -/
def renderContext (r : EmitResult) : String :=
  (r.files.map (fun f => renderFileSection f.1 f.2)).foldl (· ++ ·) "" ++
    (match r.marker with
     | some lim => markerText lim
     | none => "")

/-- A concrete configuration
with positive limits for the context-assembly witnesses. -/
def cfgW4 : Config :=
  { cfgA with maxFiles := 1, maxContextSize := 100 }

/-- A concrete diff-scoped configuration for the priority-order witness. -/
def cfgW5 : Config :=
  { cfgA with gitDiff := true }

/-- A concrete two-file target forest. -/
def forestW4 : FSForest :=
  .file "a.go" "package a" (.file "b.go" "package b" .nil)

/-- A concrete target forest with one changed and one unchanged file. -/
def forestW5 : FSForest :=
  .file "a.go" "package a" (.file "b.go" "package b" .nil)

/-- `CommitInfo` from git.go. -/
structure CommitInfo where
  sha : String
  author : String
  email : String
  message : String
  timestamp : String
  deriving Repr, DecidableEq

/-- `GitAnalyzer.BuildGitContext` from git.go, with the git subprocess
results passed as inputs: the commit-info lookup (whose failure fails the
whole call), changed files, diff stats and diff text (each `none` when the
underlying git command failed; those failures are tolerated).  The slice
`commitInfo.SHA[:12]` panics in Go when the commit id is shorter than 12
characters; the total embedding returns an error on that branch. -/
def buildGitContext (commitInfo : Except String CommitInfo)
    (changedFiles : Option (List String)) (stats : Option String)
    (diff : Option String) : Except String String :=
  match commitInfo with
  | .error e => .error e
  | .ok ci =>
    if 12 ≤ ci.sha.length then
      let header := "=== Git Commit Information ===\n" ++
        "Commit: " ++ (⟨ci.sha.data.take 12⟩ : String) ++ "\n" ++
        "Author: " ++ ci.author ++ " <" ++ ci.email ++ ">\n" ++
        "Date: " ++ ci.timestamp ++ "\n" ++
        "Message: " ++ ci.message ++ "\n" ++ "\n"
      let filesPart :=
        match changedFiles with
        | some fs =>
          if fs.length > 0 then
            "=== Changed Files ===\n" ++
              (fs.map (fun f => "- " ++ f ++ "\n")).foldl (· ++ ·) "" ++ "\n"
          else ""
        | none => ""
      let statsPart :=
        match stats with
        | some s => if s ≠ "" then "=== Change Statistics ===\n" ++ s ++ "\n" else ""
        | none => ""
      let diffPart :=
        match diff with
        | some d =>
          if d ≠ "" then
            "=== Commit Diff ===\n" ++
              (if d.length > 50000 then
                (⟨d.data.take 50000⟩ : String) ++
                  "\n... [diff truncated due to size] ...\n"
              else d) ++ "\n"
          else ""
        | none => ""
      .ok (header ++ filesPart ++ statsPart ++ diffPart)
    else .error "slice bounds out of range [:12]"

/-- A commit record with a full 40-character id, used to instantiate
theorems. -/
def ciW : CommitInfo :=
  { sha := "0123456789abcdef0123456789abcdef01234567", author := "Dev"
    email := "dev@example.com", message := "fix bug", timestamp := "2024-01-01" }

/-- A commit record with a 3-character id, hitting the slice bound. -/
def ciShort : CommitInfo :=
  { sha := "abc", author := "Dev", email := "dev@example.com"
    message := "fix bug", timestamp := "2024-01-01" }

/-- `ServiceAccountCredentials` from gemini.go. -/
structure ServiceAccountCredentials where
  type : String
  projectID : String
  privateKeyID : String
  privateKey : String
  clientEmail : String
  clientID : String
  authURI : String
  tokenURI : String
  authProviderX509CertURL : String
  clientX509CertURL : String
  deriving Repr, DecidableEq

/-- A JSON value of the JWT header/claims maps (strings and integers are
the only value shapes getAccessToken uses). -/
inductive JsonVal where
  | str (s : String)
  | int (n : Int)
  deriving Repr, DecidableEq

/-- The external library primitives used by signJWT/getAccessToken:
`encoding/json` marshalling of a string-keyed map (Go emits map keys in
sorted order, so the maps below are written sorted), `crypto/sha256`, and
`crypto/rsa` PKCS#1 v1.5 signing with a PEM-encoded private key (`none`
models a key that fails to decode or parse, a non-RSA key, or a signing
failure). -/
structure CryptoPrims where
  jsonMarshal : List (String × JsonVal) → List Nat
  sha256 : String → List Nat
  rsaSignPKCS1v15 : String → List Nat → Option (List Nat)

/-- The base64url alphabet of `base64.RawURLEncoding`. -/
def b64urlAlphabet : List Char :=
  "ABCDEFGHIJKLMNOPQRSTUVWXYZabcdefghijklmnopqrstuvwxyz0123456789-_".data

/-- The character for one six-bit group. -/
def b64urlChar (n : Nat) : Char :=
  b64urlAlphabet.getD n 'A'

/-- `base64.RawURLEncoding.EncodeToString`: unpadded base64url encoding,
three input bytes to four alphabet characters, with two or three
characters for one or two trailing bytes. -/
def base64urlChars : List Nat → List Char
  | [] => []
  | [b1] => [b64urlChar (b1 / 4), b64urlChar (b1 % 4 * 16)]
  | [b1, b2] =>
    [b64urlChar (b1 / 4), b64urlChar (b1 % 4 * 16 + b2 / 16),
     b64urlChar (b2 % 16 * 4)]
  | b1 :: b2 :: b3 :: rest =>
    b64urlChar (b1 / 4) :: b64urlChar (b1 % 4 * 16 + b2 / 16) ::
      b64urlChar (b2 % 16 * 4 + b3 / 64) :: b64urlChar (b3 % 64) ::
      base64urlChars rest

/-- base64url encoding of a byte list as a string. -/
def base64url (bs : List Nat) : String :=
  ⟨base64urlChars bs⟩

/-- The fixed JWT header `{alg: RS256, typ: JWT}` of signJWT. -/
def jwtHeader : List (String × JsonVal) :=
  [("alg", .str "RS256"), ("typ", .str "JWT")]

/-- The combined regional-plus-global OAuth scope string of
getAccessToken. -/
def jwtScope : String :=
  "https://www.googleapis.com/auth/cloud-platform https://www.googleapis.com/auth/generative-language"

/-- The claims map of getAccessToken, keys in Go json.Marshal (sorted)
order: audience = token endpoint, expiry = now + 1 hour (3600 seconds,
`now.Add(time.Hour).Unix()`), issued-at = now, issuer = the service-account
client email, scope = the combined scope string. -/
def jwtClaims (clientEmail tokenURI : String) (now : Int) :
    List (String × JsonVal) :=
  [("aud", .str tokenURI), ("exp", .int (now + 3600)), ("iat", .int now),
   ("iss", .str clientEmail), ("scope", .str jwtScope)]

/-- `signJWT` from gemini.go: base64url-encode the marshalled header and
claims, join with a dot, sign the SHA-256 of that string with
RSA-PKCS1v15, and append the base64url-encoded signature as a third
segment. -/
def signJWT (prims : CryptoPrims) (claims : List (String × JsonVal))
    (privateKeyPEM : String) : Except String String :=
  let headerJSON := prims.jsonMarshal jwtHeader
  let claimsJSON := prims.jsonMarshal claims
  let headerB64 := base64url headerJSON
  let claimsB64 := base64url claimsJSON
  let signingInput := headerB64 ++ "." ++ claimsB64
  match prims.rsaSignPKCS1v15 privateKeyPEM (prims.sha256 signingInput) with
  | none => .error "failed to sign JWT"
  | some signature => .ok (signingInput ++ "." ++ base64url signature)

/-- The assertion minted by getAccessToken from a parsed service-account
record at signing time `now` (seconds since the Unix epoch). -/
def getAccessTokenAssertion (prims : CryptoPrims)
    (creds : ServiceAccountCredentials) (now : Int) : Except String String :=
  signJWT prims (jwtClaims creds.clientEmail creds.tokenURI now)
    creds.privateKey

/-- Split a character list at every dot (the segment structure of a JWT). -/
def splitDots : List Char → List (List Char)
  | [] => [[]]
  | c :: rest =>
    let r := splitDots rest
    if c = '.' then [] :: r
    else
      match r with
      | [] => [[c]]
      | seg :: segs => (c :: seg) :: segs

/-- Concrete crypto primitives used to instantiate the JWT theorem. -/
def primsW : CryptoPrims :=
  { jsonMarshal := fun kvs => List.replicate kvs.length 65
    sha256 := fun s => [s.utf8ByteSize % 256]
    rsaSignPKCS1v15 := fun _ h => some (0 :: h) }

/-- A concrete service-account record used to instantiate the JWT
theorem. -/
def credsW : ServiceAccountCredentials :=
  { type := "service_account", projectID := "my-project"
    privateKeyID := "key-1", privateKey := "PEM"
    clientEmail := "sa@my-project.iam.gserviceaccount.com"
    clientID := "123", authURI := "https://accounts.google.com/o/oauth2/auth"
    tokenURI := "https://oauth2.googleapis.com/token"
    authProviderX509CertURL := "https://www.googleapis.com/oauth2/v1/certs"
    clientX509CertURL := "https://example.com/cert" }

end DroneGemini

namespace DroneGemini

/-- C1: DetectAuthMode is a pure function of (APIKey, GCPCredentials,
GCPProject) with the stated case analysis: AuthModeAPIKey iff the key is
non-empty; AuthModeVertexAI iff the key is empty and both credentials and
project are non-empty; AuthModeNone in every other case. -/
theorem detectAuthMode_spec (c c' : Config)
    (hk : c.apiKey = c'.apiKey)
    (hc : c.gcpCredentials = c'.gcpCredentials)
    (hp : c.gcpProject = c'.gcpProject) :
    c.detectAuthMode = c'.detectAuthMode ∧
    (c.detectAuthMode = .authModeAPIKey ↔ c.apiKey ≠ "") ∧
    (c.detectAuthMode = .authModeVertexAI ↔
      c.apiKey = "" ∧ c.gcpCredentials ≠ "" ∧ c.gcpProject ≠ "") ∧
    (c.detectAuthMode = .authModeNone ↔
      c.apiKey = "" ∧ ¬(c.gcpCredentials ≠ "" ∧ c.gcpProject ≠ "")) := by
  constructor
  · simp only [Config.detectAuthMode, hk, hc, hp]
  · unfold Config.detectAuthMode
    refine ⟨?_, ?_, ?_⟩ <;> split_ifs with h1 h2 <;> simp_all

/-- Witness for C1 at a concrete configuration pair. -/
theorem detectAuthMode_spec_witness :
    cfgA.detectAuthMode = cfgA.detectAuthMode ∧
      (cfgA.detectAuthMode = .authModeAPIKey ↔ cfgA.apiKey ≠ "") ∧
      (cfgA.detectAuthMode = .authModeVertexAI ↔
        cfgA.apiKey = "" ∧ cfgA.gcpCredentials ≠ "" ∧ cfgA.gcpProject ≠ "") ∧
      (cfgA.detectAuthMode = .authModeNone ↔
        cfgA.apiKey = "" ∧ ¬(cfgA.gcpCredentials ≠ "" ∧ cfgA.gcpProject ≠ "")) :=
  detectAuthMode_spec cfgA cfgA rfl rfl rfl

/-- C7: Validate returns PromptRequired exactly when the prompt is empty,
independent of which credentials are supplied. -/
theorem validate_promptRequired_iff (c : Config) :
    c.validate = some .errPromptRequired ↔ c.prompt = "" := by
  unfold Config.validate
  split_ifs with h1 h2 h3 <;> simp_all

/-- C9: the defensive ProjectRequired branch of Validate is unreachable:
every result is nil, PromptRequired or NoCredentials. -/
theorem validate_never_projectRequired (c : Config) :
    c.validate = none ∨ c.validate = some .errPromptRequired ∨
      c.validate = some .errNoCredentials := by
  unfold Config.validate
  split_ifs with h1 h2 h3
  · simp
  · simp
  · exfalso
    obtain ⟨hv, hp⟩ := h3
    unfold Config.detectAuthMode at hv
    split_ifs at hv with ha hb <;> simp_all
  · simp

/-- C2: CalculateCost prices all three categories at the long-context rates
(thinking billed at the long output rate) and sets the long-context flag
exactly when the threshold is positive and exceeded; otherwise the
short-context rates apply; each category cost is tokens / 1,000,000 times
the applicable price, and TotalCost is the sum of the three. -/
theorem calculateCost_spec (pricing : ModelPricing)
    (inputTokens outputTokens thoughtsTokens : Int)
    (hi : 0 ≤ inputTokens) (ho : 0 ≤ outputTokens) (ht : 0 ≤ thoughtsTokens) :
    (calculateCost pricing inputTokens outputTokens thoughtsTokens).totalCost =
      (calculateCost pricing inputTokens outputTokens thoughtsTokens).inputCost +
      (calculateCost pricing inputTokens outputTokens thoughtsTokens).outputCost +
      (calculateCost pricing inputTokens outputTokens thoughtsTokens).thoughtsCost ∧
    (pricing.longContextThreshold > 0 ∧
        inputTokens > pricing.longContextThreshold →
      (calculateCost pricing inputTokens outputTokens thoughtsTokens).isLongContext = true ∧
      (calculateCost pricing inputTokens outputTokens thoughtsTokens).inputCost =
        (inputTokens : ℚ) / 1000000 * pricing.inputPriceLong ∧
      (calculateCost pricing inputTokens outputTokens thoughtsTokens).outputCost =
        (outputTokens : ℚ) / 1000000 * pricing.outputPriceLong ∧
      (calculateCost pricing inputTokens outputTokens thoughtsTokens).thoughtsCost =
        (thoughtsTokens : ℚ) / 1000000 * pricing.outputPriceLong) ∧
    (pricing.longContextThreshold = 0 ∨
        inputTokens ≤ pricing.longContextThreshold →
      (calculateCost pricing inputTokens outputTokens thoughtsTokens).isLongContext = false ∧
      (calculateCost pricing inputTokens outputTokens thoughtsTokens).inputCost =
        (inputTokens : ℚ) / 1000000 * pricing.inputPriceShort ∧
      (calculateCost pricing inputTokens outputTokens thoughtsTokens).outputCost =
        (outputTokens : ℚ) / 1000000 * pricing.outputPriceShort ∧
      (calculateCost pricing inputTokens outputTokens thoughtsTokens).thoughtsCost =
        (thoughtsTokens : ℚ) / 1000000 * pricing.outputPriceShort) := by
  refine ⟨?_, ?_, ?_⟩
  · rcases Classical.em (pricing.longContextThreshold > 0 ∧
        inputTokens > pricing.longContextThreshold) with h | h <;>
      simp [calculateCost, h]
  · intro hl
    simp [calculateCost, hl]
  · intro hs
    have hneg : ¬(pricing.longContextThreshold > 0 ∧
        inputTokens > pricing.longContextThreshold) := by
      rcases hs with hs | hs <;> omega
    simp [calculateCost, hneg]

/-- Witness for C2 at the gemini-2.5-pro entry with long-context input. -/
theorem calculateCost_spec_witness :
    (calculateCost pricingW 250000 100 50).totalCost =
      (calculateCost pricingW 250000 100 50).inputCost +
      (calculateCost pricingW 250000 100 50).outputCost +
      (calculateCost pricingW 250000 100 50).thoughtsCost ∧
    (pricingW.longContextThreshold > 0 ∧
        (250000 : Int) > pricingW.longContextThreshold →
      (calculateCost pricingW 250000 100 50).isLongContext = true ∧
      (calculateCost pricingW 250000 100 50).inputCost =
        (250000 : ℚ) / 1000000 * pricingW.inputPriceLong ∧
      (calculateCost pricingW 250000 100 50).outputCost =
        (100 : ℚ) / 1000000 * pricingW.outputPriceLong ∧
      (calculateCost pricingW 250000 100 50).thoughtsCost =
        (50 : ℚ) / 1000000 * pricingW.outputPriceLong) ∧
    (pricingW.longContextThreshold = 0 ∨
        (250000 : Int) ≤ pricingW.longContextThreshold →
      (calculateCost pricingW 250000 100 50).isLongContext = false ∧
      (calculateCost pricingW 250000 100 50).inputCost =
        (250000 : ℚ) / 1000000 * pricingW.inputPriceShort ∧
      (calculateCost pricingW 250000 100 50).outputCost =
        (100 : ℚ) / 1000000 * pricingW.outputPriceShort ∧
      (calculateCost pricingW 250000 100 50).thoughtsCost =
        (50 : ℚ) / 1000000 * pricingW.outputPriceShort) :=
  calculateCost_spec pricingW 250000 100 50 (by decide) (by decide) (by decide)

/-- C3: the pricing lookup is order-dependent, contradicting the required
determinism.  Both lists below enumerate exactly the entries of the
PricingTable map (the second is a permutation of the first), yet for the
model identifier "gemini-2.5-flash-lite-001" the partial-match loop selects
the gemini-2.5-flash entry under one iteration order and the
gemini-2.5-flash-lite entry under the other, so the costs differ. -/
theorem pricing_lookup_order_dependent :
    List.Perm pricingTable.reverse pricingTable ∧
    (newCostCalculatorPricing pricingTable "gemini-2.5-flash-lite-001").name
      = "Gemini 2.5 Flash" ∧
    (newCostCalculatorPricing pricingTable.reverse
        "gemini-2.5-flash-lite-001").name = "Gemini 2.5 Flash-Lite" ∧
    (newCostCalculatorPricing pricingTable "gemini-2.5-flash-lite-001").inputPriceShort
      = 30 / 100 ∧
    (newCostCalculatorPricing pricingTable.reverse
        "gemini-2.5-flash-lite-001").inputPriceShort = 10 / 100 ∧
    (calculateCost (newCostCalculatorPricing pricingTable
        "gemini-2.5-flash-lite-001") 1000000 0 0).model = "Gemini 2.5 Flash" ∧
    (calculateCost (newCostCalculatorPricing pricingTable.reverse
        "gemini-2.5-flash-lite-001") 1000000 0 0).model = "Gemini 2.5 Flash-Lite" := by
  exact ⟨List.reverse_perm _, by decide, by decide, by rfl, by rfl, by decide, by decide⟩

/-- C8 counterexample: on the three-character prompt "日本語" the code's
estimate (UTF-8 byte count 9, divided by 3) differs from the spec's
character-count reading (3 characters, divided by 3). -/
theorem estimateTokens_charCount_cex :
    estimateTokens "日本語" = 3 ∧ estimateTokensSpec "日本語" = 1 ∧
    (estimateTokens "日本語" == estimateTokensSpec "日本語") = false := by
  refine ⟨?_, ?_, ?_⟩ <;> decide

/-- C8 (amended): the estimate equals the prompt's UTF-8 byte count divided
by three; on prompts made only of ASCII characters this coincides with the
character count divided by three.  No tokenizer is consulted. -/
theorem estimateTokens_bytes (text : String)
    (hascii : ∀ c ∈ text.toList, c.utf8Size = 1) :
    estimateTokens text = text.utf8ByteSize / 3 ∧
    estimateTokens text = text.length / 3 := by
  refine ⟨rfl, ?_⟩
  have key : ∀ l : List Char, (∀ c ∈ l, c.utf8Size = 1) →
      String.utf8ByteSize.go l = l.length := by
    intro l hl
    induction l with
    | nil => rfl
    | cons c cs ih =>
      have hc : c.utf8Size = 1 := hl c (List.mem_cons_self _ _)
      have ih' := ih fun x hx => hl x (List.mem_cons_of_mem _ hx)
      show String.utf8ByteSize.go cs + c.utf8Size = cs.length + 1
      omega
  have hsize : text.utf8ByteSize = text.length := by
    rcases text with ⟨data⟩
    exact key data hascii
  rw [show estimateTokens text = text.utf8ByteSize / 3 from rfl, hsize]

/-- Witness for C8's amended theorem on an ASCII prompt. -/
theorem estimateTokens_bytes_witness :
    estimateTokens "Hello world, this is a test string" =
        (String.utf8ByteSize "Hello world, this is a test string") / 3 ∧
    estimateTokens "Hello world, this is a test string" =
        (String.length "Hello world, this is a test string") / 3 :=
  estimateTokens_bytes "Hello world, this is a test string" (by decide)

theorem emitFiles_emits_front (mf ms : Int) :
    ∀ (l : List (String × String)) (fc ts : Int),
      ∃ t, (emitFiles mf ms l fc ts).files ++ t = l := by
  intro l
  induction l with
  | nil => intro fc ts; exact ⟨[], rfl⟩
  | cons pc rest ih =>
    intro fc ts
    simp only [emitFiles]
    split_ifs with ha hb
    · exact ⟨pc :: rest, rfl⟩
    · exact ⟨pc :: rest, rfl⟩
    · obtain ⟨t, ht⟩ := ih (fc + 1) (ts + (pc.2.utf8ByteSize : Int))
      exact ⟨t, by simp [ht]⟩

theorem emitFiles_count_bound (mf ms : Int) :
    ∀ (l : List (String × String)) (fc ts : Int), 0 < mf →
      ((emitFiles mf ms l fc ts).files.length : Int) ≤ max (mf - fc) 0 := by
  intro l
  induction l with
  | nil => intro fc ts h; simp [emitFiles]
  | cons pc rest ih =>
    intro fc ts h
    simp only [emitFiles]
    split_ifs with ha hb
    · simp
    · simp
    · have hrec := ih (fc + 1) (ts + (pc.2.utf8ByteSize : Int)) h
      simp only [List.length_cons]
      push_cast at hrec ⊢
      omega

theorem emitFiles_size_bound (mf ms : Int) :
    ∀ (l : List (String × String)) (fc ts : Int), 0 < ms → ts ≤ ms →
      ts + sumSizes (emitFiles mf ms l fc ts).files ≤ ms := by
  intro l
  induction l with
  | nil => intro fc ts h1 h2; simpa [emitFiles, sumSizes] using h2
  | cons pc rest ih =>
    intro fc ts h1 h2
    simp only [emitFiles]
    split_ifs with ha hb
    · simpa [sumSizes] using h2
    · simpa [sumSizes] using h2
    · have hle : ts + (pc.2.utf8ByteSize : Int) ≤ ms := by omega
      have hrec := ih (fc + 1) (ts + (pc.2.utf8ByteSize : Int)) h1 hle
      simp only [sumSizes, List.map_cons, List.sum_cons] at hrec ⊢
      omega

theorem emitFiles_none_complete (mf ms : Int) :
    ∀ (l : List (String × String)) (fc ts : Int),
      (emitFiles mf ms l fc ts).marker = none →
      (emitFiles mf ms l fc ts).files = l := by
  intro l
  induction l with
  | nil => intro fc ts _; rfl
  | cons pc rest ih =>
    intro fc ts h
    simp only [emitFiles] at h ⊢
    split_ifs at h ⊢ with ha hb
    show pc :: (emitFiles mf ms rest (fc + 1)
      (ts + (pc.2.utf8ByteSize : Int))).files = pc :: rest
    rw [ih (fc + 1) (ts + (pc.2.utf8ByteSize : Int)) h]

theorem emitFiles_marker_names (mf ms : Int) :
    ∀ (l : List (String × String)) (fc ts : Int) (lim : TruncLimit),
      (emitFiles mf ms l fc ts).marker = some lim →
      lim = .maxFilesLimit mf ∨ lim = .maxSizeLimit ms := by
  intro l
  induction l with
  | nil => intro fc ts lim h; simp [emitFiles] at h
  | cons pc rest ih =>
    intro fc ts lim h
    simp only [emitFiles] at h
    split_ifs at h with ha hb
    · simp at h
      exact Or.inl h.symm
    · simp at h
      exact Or.inr h.symm
    · exact ih _ _ lim (by simpa using h)

theorem walkForest_sound :
    ∀ (f : FSForest) (pre : List String),
      ∀ pc ∈ walkForest f pre,
        ∃ ds name content,
          pc = (relJoin (pre ++ ds) name, content) ∧
          (∀ d ∈ ds, isHiddenName d = false ∧ excludeDirs.contains d = false) ∧
          eligibleFile name content = true := by
  intro f
  induction f with
  | nil =>
    intro pre pc h
    simp [walkForest] at h
  | file name content rest ih =>
    intro pre pc h
    simp only [walkForest] at h
    rcases List.mem_append.mp h with h | h
    · rcases Classical.em (eligibleFile name content = true) with he | he
      · rw [if_pos he] at h
        simp only [List.mem_singleton] at h
        exact ⟨[], name, content, by simpa using h, by simp, he⟩
      · rw [if_neg he] at h
        simp at h
    · exact ih pre pc h
  | dir name entries rest ih₁ ih₂ =>
    intro pre pc h
    simp only [walkForest] at h
    rcases List.mem_append.mp h with h | h
    · rcases Classical.em ((isHiddenName name || excludeDirs.contains name) = true)
        with hd | hd
      · rw [if_pos hd] at h
        simp at h
      · rw [if_neg hd] at h
        simp only [Bool.or_eq_true, not_or, Bool.not_eq_true] at hd
        obtain ⟨ds, n, c, hpc, hds, hel⟩ := ih₁ (pre ++ [name]) pc h
        refine ⟨name :: ds, n, c, ?_, ?_, hel⟩
        · simpa [List.append_assoc] using hpc
        · intro d hdm
          rcases List.mem_cons.mp hdm with rfl | hdm
          · exact hd
          · exact hds d hdm
    · exact ih₂ pre pc h

theorem eligibleFile_size_le (name content : String)
    (h : eligibleFile name content = true) :
    content.utf8ByteSize ≤ 100 * 1024 := by
  simp only [eligibleFile, Bool.and_eq_true, decide_eq_true_eq] at h
  exact h.2

/-- C4: every file in the emitted bundle is at most 100 KiB, eligible, and
reached only through non-hidden, non-excluded directories (the root is not
tested); at most maxFiles files are emitted when that limit is positive;
the emitted content bytes never exceed maxContextSize when that budget is
positive; any truncation marker names one of the two configured limits and
terminates the rendered bundle; and when no marker is present nothing was
dropped. -/
theorem buildContext_invariants (cfg : Config)
    (changedFiles : Option (List String)) (root : FSForest) :
    (∀ pc ∈ (buildContextFiles cfg changedFiles root).files,
      pc.2.utf8ByteSize ≤ 100 * 1024 ∧
      ∃ ds name content,
        pc = (relJoin ds name, content) ∧
        (∀ d ∈ ds, isHiddenName d = false ∧ excludeDirs.contains d = false) ∧
        eligibleFile name content = true) ∧
    (0 < cfg.maxFiles →
      ((buildContextFiles cfg changedFiles root).files.length : Int) ≤
        cfg.maxFiles) ∧
    (0 < cfg.maxContextSize →
      sumSizes (buildContextFiles cfg changedFiles root).files ≤
        cfg.maxContextSize) ∧
    (∀ lim, (buildContextFiles cfg changedFiles root).marker = some lim →
      (lim = .maxFilesLimit cfg.maxFiles ∨
        lim = .maxSizeLimit cfg.maxContextSize) ∧
      ∃ s, renderContext (buildContextFiles cfg changedFiles root) =
        s ++ markerText lim) ∧
    ((buildContextFiles cfg changedFiles root).marker = none →
      (buildContextFiles cfg changedFiles root).files.length =
        (walkForest root []).length) := by
  have hmem : ∀ pc ∈ (buildContextFiles cfg changedFiles root).files,
      pc ∈ walkForest root [] := by
    intro pc hpc
    obtain ⟨t, ht⟩ := emitFiles_emits_front cfg.maxFiles cfg.maxContextSize
      ((walkForest root []).filter (fun f =>
        isChanged (if cfg.gitDiff then changedFiles else none) f.1) ++
       (walkForest root []).filter (fun f =>
        !isChanged (if cfg.gitDiff then changedFiles else none) f.1)) 0 0
    have hin : pc ∈
        (walkForest root []).filter (fun f =>
          isChanged (if cfg.gitDiff then changedFiles else none) f.1) ++
        (walkForest root []).filter (fun f =>
          !isChanged (if cfg.gitDiff then changedFiles else none) f.1) := by
      rw [← ht]
      exact List.mem_append_left _ hpc
    rcases List.mem_append.mp hin with hin | hin
    · exact (List.mem_filter.mp hin).1
    · exact (List.mem_filter.mp hin).1
  refine ⟨?_, ?_, ?_, ?_, ?_⟩
  · intro pc hpc
    obtain ⟨ds, name, content, hpceq, hds, hel⟩ :=
      walkForest_sound root [] pc (hmem pc hpc)
    refine ⟨?_, ds, name, content, by simpa using hpceq, hds, hel⟩
    have : pc.2 = content := by rw [hpceq]
    rw [this]
    exact eligibleFile_size_le name content hel
  · intro hpos
    have hbound : ((buildContextFiles cfg changedFiles root).files.length : Int) ≤
        max (cfg.maxFiles - 0) 0 :=
      emitFiles_count_bound cfg.maxFiles cfg.maxContextSize _ 0 0 hpos
    omega
  · intro hpos
    have hbound : (0 : Int) +
        sumSizes (buildContextFiles cfg changedFiles root).files ≤
        cfg.maxContextSize :=
      emitFiles_size_bound cfg.maxFiles cfg.maxContextSize _ 0 0 hpos
        (le_of_lt hpos)
    omega
  · intro lim hlim
    constructor
    · exact emitFiles_marker_names cfg.maxFiles cfg.maxContextSize _ 0 0 lim hlim
    · refine ⟨((buildContextFiles cfg changedFiles root).files.map
        (fun f => renderFileSection f.1 f.2)).foldl (· ++ ·) "", ?_⟩
      simp only [renderContext, hlim]
  · intro hnone
    have hcompl : (buildContextFiles cfg changedFiles root).files =
        (walkForest root []).filter (fun f =>
          isChanged (if cfg.gitDiff then changedFiles else none) f.1) ++
        (walkForest root []).filter (fun f =>
          !isChanged (if cfg.gitDiff then changedFiles else none) f.1) :=
      emitFiles_none_complete cfg.maxFiles cfg.maxContextSize _ 0 0 hnone
    rw [hcompl]
    exact (List.filter_append_perm (fun f =>
      isChanged (if cfg.gitDiff then changedFiles else none) f.1)
      (walkForest root [])).length_eq

/-- Witness for C4 at a concrete configuration and forest, discharging the
positivity hypotheses of the count and byte bounds. -/
theorem buildContext_invariants_witness :
    ((0 : Int) < cfgW4.maxFiles ∧
      ((buildContextFiles cfgW4 none forestW4).files.length : Int) ≤
        cfgW4.maxFiles) ∧
    ((0 : Int) < cfgW4.maxContextSize ∧
      sumSizes (buildContextFiles cfgW4 none forestW4).files ≤
        cfgW4.maxContextSize) :=
  ⟨⟨by decide, (buildContext_invariants cfgW4 none forestW4).2.1 (by decide)⟩,
   ⟨by decide, (buildContext_invariants cfgW4 none forestW4).2.2.1 (by decide)⟩⟩

/-- C5: when diff scope is active and a changed-file set was obtained, the
emitted bundle splits into a block of changed files followed by a block of
non-changed files. -/
theorem buildContext_changed_first (cfg : Config)
    (changedFiles : Option (List String)) (cs : List String) (root : FSForest)
    (h1 : cfg.gitDiff = true) (h2 : changedFiles = some cs) :
    ∃ A B, (buildContextFiles cfg changedFiles root).files = A ++ B ∧
      (∀ a ∈ A, cs.contains a.1 = true) ∧
      (∀ b ∈ B, cs.contains b.1 = false) := by
  subst h2
  have hch : (if cfg.gitDiff then some cs else none) = some cs := by
    simp [h1]
  obtain ⟨t, ht⟩ := emitFiles_emits_front cfg.maxFiles cfg.maxContextSize
    ((walkForest root []).filter (fun f =>
      isChanged (if cfg.gitDiff then some cs else none) f.1) ++
     (walkForest root []).filter (fun f =>
      !isChanged (if cfg.gitDiff then some cs else none) f.1)) 0 0
  have hfiles : (buildContextFiles cfg (some cs) root).files =
      (emitFiles cfg.maxFiles cfg.maxContextSize
        ((walkForest root []).filter (fun f =>
          isChanged (if cfg.gitDiff then some cs else none) f.1) ++
         (walkForest root []).filter (fun f =>
          !isChanged (if cfg.gitDiff then some cs else none) f.1)) 0 0).files := rfl
  rcases List.append_eq_append_iff.mp ht with ⟨a', hP1, _⟩ | ⟨c', hE, hP2⟩
  · refine ⟨(buildContextFiles cfg (some cs) root).files, [], by simp, ?_, by simp⟩
    intro a ha
    have hin : a ∈ (walkForest root []).filter (fun f =>
        isChanged (if cfg.gitDiff then some cs else none) f.1) := by
      rw [hP1]
      rw [hfiles] at ha
      exact List.mem_append_left _ ha
    have := (List.mem_filter.mp hin).2
    rw [hch] at this
    simpa [isChanged] using this
  · refine ⟨(walkForest root []).filter (fun f =>
      isChanged (if cfg.gitDiff then some cs else none) f.1), c', ?_, ?_, ?_⟩
    · rw [hfiles]
      exact hE
    · intro a ha
      have := (List.mem_filter.mp ha).2
      rw [hch] at this
      simpa [isChanged] using this
    · intro b hb
      have hbin : b ∈ (walkForest root []).filter (fun f =>
          !isChanged (if cfg.gitDiff then some cs else none) f.1) := by
        rw [hP2]
        exact List.mem_append_left _ hb
      have := (List.mem_filter.mp hbin).2
      rw [hch] at this
      simpa [isChanged] using this

/-- Witness for C5: with diff scope on and changed set {b.go}, the bundle
splits into changed-then-unchanged blocks. -/
theorem buildContext_changed_first_witness :
    ∃ A B, (buildContextFiles cfgW5 (some ["b.go"]) forestW5).files = A ++ B ∧
      (∀ a ∈ A, (["b.go"] : List String).contains a.1 = true) ∧
      (∀ b ∈ B, (["b.go"] : List String).contains b.1 = false) :=
  buildContext_changed_first cfgW5 (some ["b.go"]) ["b.go"] forestW5 rfl rfl

/-- C10: BuildGitContext's 12-character commit abbreviation is partial:
every successful result presupposes a commit id of at least 12 characters,
and a shorter commit id hits the out-of-range slice (a panic in the Go
code, the error branch of the total embedding). -/
theorem buildGitContext_sha_length (ci : CommitInfo)
    (changedFiles : Option (List String)) (stats diff : Option String) :
    (∀ s, buildGitContext (.ok ci) changedFiles stats diff = .ok s →
      12 ≤ ci.sha.length) ∧
    (ci.sha.length < 12 →
      buildGitContext (.ok ci) changedFiles stats diff =
        .error "slice bounds out of range [:12]") := by
  constructor
  · intro s hs
    by_contra hlt
    simp only [buildGitContext] at hs
    rw [if_neg hlt] at hs
    exact Except.noConfusion hs
  · intro hlt
    simp only [buildGitContext]
    rw [if_neg (Nat.not_le.mpr hlt)]

/-- Witness for C10: a 40-character commit id succeeds (so its length
bound follows from the theorem), and a 3-character id yields the slice
error. -/
theorem buildGitContext_sha_length_witness :
    12 ≤ ciW.sha.length ∧
    buildGitContext (.ok ciShort) none none none =
      .error "slice bounds out of range [:12]" :=
  ⟨(buildGitContext_sha_length ciW none none none).1
      ((buildGitContext (.ok ciW) none none none).toOption.getD "") rfl,
   (buildGitContext_sha_length ciShort none none none).2 (by decide)⟩

theorem string_data_append (a b : String) :
    (a ++ b).data = a.data ++ b.data := by
  rcases a with ⟨l⟩
  rcases b with ⟨m⟩
  rfl

theorem b64urlChar_ne_dot (n : Nat) : b64urlChar n ≠ '.' := by
  unfold b64urlChar
  rcases Nat.lt_or_ge n b64urlAlphabet.length with h | h
  · have hm : b64urlAlphabet.getD n 'A' ∈ b64urlAlphabet := by
      rw [List.getD_eq_getElem _ _ h]
      exact List.getElem_mem _
    intro he
    rw [he] at hm
    exact absurd hm (by decide)
  · rw [List.getD_eq_default _ _ h]
    decide

theorem dot_ne_b64urlChar (n : Nat) : ('.' = b64urlChar n) ↔ False :=
  ⟨fun h => b64urlChar_ne_dot n h.symm, False.elim⟩

theorem dot_not_mem_base64urlChars : ∀ bs : List Nat, '.' ∉ base64urlChars bs
  | [] => by simp [base64urlChars]
  | [b1] => by simp [base64urlChars, List.mem_cons, dot_ne_b64urlChar]
  | [b1, b2] => by simp [base64urlChars, List.mem_cons, dot_ne_b64urlChar]
  | b1 :: b2 :: b3 :: rest => by
    have ih := dot_not_mem_base64urlChars rest
    simp [base64urlChars, List.mem_cons, dot_ne_b64urlChar, ih]

theorem splitDots_nodot : ∀ (a : List Char), '.' ∉ a → splitDots a = [a]
  | [], _ => rfl
  | x :: xs, h => by
    have hx : ¬(x = '.') := fun he => h (he ▸ List.mem_cons_self x xs)
    have h' : '.' ∉ xs := fun hm => h (List.mem_cons_of_mem _ hm)
    simp [splitDots, hx, splitDots_nodot xs h']

theorem splitDots_append (a r : List Char) (h : '.' ∉ a) :
    splitDots (a ++ '.' :: r) = a :: splitDots r := by
  induction a with
  | nil => simp [splitDots]
  | cons x xs ih =>
    have hx : ¬(x = '.') := fun he => h (he ▸ List.mem_cons_self x xs)
    have h' : '.' ∉ xs := fun hm => h (List.mem_cons_of_mem _ hm)
    simp [splitDots, hx, ih h']

/-- C6: a successfully signed assertion is exactly three base64url
segments joined by dots: the marshalled header {alg RS256, typ JWT}; the
marshalled claims with issuer = client email, audience = token endpoint,
scope = combined scope string, issued-at = now, expiry = now + 1 hour; and
the RSA-PKCS1v15 signature over the SHA-256 of the header-dot-claims
string, computed with the record's private key. -/
theorem getAccessTokenAssertion_spec (prims : CryptoPrims)
    (creds : ServiceAccountCredentials) (now : Int) (jwt : String)
    (hok : getAccessTokenAssertion prims creds now = .ok jwt) :
    ∃ signature,
      prims.rsaSignPKCS1v15 creds.privateKey
        (prims.sha256 (base64url (prims.jsonMarshal jwtHeader) ++ "." ++
          base64url (prims.jsonMarshal
            (jwtClaims creds.clientEmail creds.tokenURI now)))) =
        some signature ∧
      jwt = base64url (prims.jsonMarshal jwtHeader) ++ "." ++
        base64url (prims.jsonMarshal
          (jwtClaims creds.clientEmail creds.tokenURI now)) ++ "." ++
        base64url signature ∧
      splitDots jwt.data =
        [(base64url (prims.jsonMarshal jwtHeader)).data,
         (base64url (prims.jsonMarshal
            (jwtClaims creds.clientEmail creds.tokenURI now))).data,
         (base64url signature).data] ∧
      jwtHeader = [("alg", .str "RS256"), ("typ", .str "JWT")] ∧
      jwtClaims creds.clientEmail creds.tokenURI now =
        [("aud", .str creds.tokenURI), ("exp", .int (now + 3600)),
         ("iat", .int now), ("iss", .str creds.clientEmail),
         ("scope", .str jwtScope)] := by
  simp only [getAccessTokenAssertion, signJWT] at hok
  rcases hsig : prims.rsaSignPKCS1v15 creds.privateKey
      (prims.sha256 (base64url (prims.jsonMarshal jwtHeader) ++ "." ++
        base64url (prims.jsonMarshal
          (jwtClaims creds.clientEmail creds.tokenURI now))))
    with _ | signature
  · rw [hsig] at hok
    exact Except.noConfusion hok
  · rw [hsig] at hok
    simp only [Except.ok.injEq] at hok
    refine ⟨signature, rfl, hok.symm, ?_, rfl, rfl⟩
    rw [← hok]
    simp only [string_data_append, base64url, List.append_assoc,
      List.singleton_append, List.cons_append, List.nil_append]
    rw [splitDots_append _ _ (dot_not_mem_base64urlChars _),
      splitDots_append _ _ (dot_not_mem_base64urlChars _),
      splitDots_nodot _ (dot_not_mem_base64urlChars _)]

/-- Witness for C6 at concrete primitives, record and signing time. -/
theorem getAccessTokenAssertion_spec_witness :
    ∃ signature,
      primsW.rsaSignPKCS1v15 credsW.privateKey
        (primsW.sha256 (base64url (primsW.jsonMarshal jwtHeader) ++ "." ++
          base64url (primsW.jsonMarshal
            (jwtClaims credsW.clientEmail credsW.tokenURI 1700000000)))) =
        some signature ∧
      (getAccessTokenAssertion primsW credsW 1700000000).toOption.getD "" =
        base64url (primsW.jsonMarshal jwtHeader) ++ "." ++
        base64url (primsW.jsonMarshal
          (jwtClaims credsW.clientEmail credsW.tokenURI 1700000000)) ++ "." ++
        base64url signature ∧
      splitDots ((getAccessTokenAssertion primsW credsW
          1700000000).toOption.getD "").data =
        [(base64url (primsW.jsonMarshal jwtHeader)).data,
         (base64url (primsW.jsonMarshal
            (jwtClaims credsW.clientEmail credsW.tokenURI 1700000000))).data,
         (base64url signature).data] ∧
      jwtHeader = [("alg", .str "RS256"), ("typ", .str "JWT")] ∧
      jwtClaims credsW.clientEmail credsW.tokenURI 1700000000 =
        [("aud", .str credsW.tokenURI), ("exp", .int (1700000000 + 3600)),
         ("iat", .int 1700000000), ("iss", .str credsW.clientEmail),
         ("scope", .str jwtScope)] :=
  getAccessTokenAssertion_spec primsW credsW 1700000000
    ((getAccessTokenAssertion primsW credsW 1700000000).toOption.getD "") rfl

end DroneGemini
